import Mathlib

/-!
Verification of the dataset-synchronization code of `python-libvin`
(`src/libvin/epa.py`: `ensure_latest` and `get_epa_updates`), against its
natural-language specification.

The embedding is shallow.  File-system state is an association list from
paths (lists of components) to file contents.  The effectful primitives of a
sync attempt (the HTTP request, `mkstemp`, writes, `zipfile` operations,
`os.rename`, `shutil.rmtree`, `os.unlink`) are driven by an explicit
environment `Env` recording, for one run, the outcome each primitive would
have; `ensure_latest` is then a pure function of the target directory, the
environment and the initial file system, returning the Python-level result
(a value or a raised exception), the final file system, and the ordered
trace of mutating events.  Python `try/finally` semantics are modelled
exactly: a `finally` block always runs, and an exception raised inside it
replaces the in-flight result.

The timestamp normalization of `get_epa_updates` is modelled by a tagged
union over the accepted input types (string, int/float epoch seconds,
naive or timezone-aware `datetime`, `struct_time`) together with models of
`time.gmtime`, `datetime.utctimetuple` and
`time.strftime "%a, %d %b %Y %H:%M:%S GMT"` built on the standard civil
calendar conversion (proleptic Gregorian, days since the Unix epoch).
-/
/-! ## Paths, events, exceptions -/
/-- A file-system path, as a list of components.  `os.path.join(a, b)`
becomes list append; the canonical dataset file of a target directory `d`
is `[d, "vehicles.csv"]`. -/
abbrev FPath := List String

/-- One observable mutating step of a sync run, in program order. -/
inductive Event where
  /-- the conditional request was issued with these headers -/
  | reqSent (hdrs : List (String × String))
  /-- a file was created or (re)written at this path -/
  | fsWrite (p : FPath)
  /-- a successful `os.rename src dst` -/
  | fsRename (src dst : FPath)
  /-- a successful `os.unlink p` -/
  | fsRemoveFile (p : FPath)
  /-- a successful `shutil.rmtree p` -/
  | fsRemoveTree (p : FPath)
deriving DecidableEq, Repr

/-- The Python exceptions that `ensure_latest` can raise, at the granularity
the code distinguishes them. -/
inductive PyExc where
  /-- `urllib2.URLError`: transport failure while opening the URL -/
  | urlError
  /-- `urllib2.HTTPError` raised by the default error handler for an error
  status (any status other than a success or the specially handled 304) -/
  | httpErrorExc (code : Nat)
  /-- `IOError`: a read/write of a file or stream failed -/
  | ioError
  /-- `OSError`: `mkstemp`, `os.rename` or `os.unlink` failed -/
  | osError
  /-- `IndexError`: `namelist[0]` on an empty list (archive selection) -/
  | indexError
  /-- `zipfile.BadZipfile`: the downloaded payload is not a zip archive -/
  | badZip
deriving DecidableEq, Repr

/-- The error taxonomy of the specification (section 7). -/
inductive SyncErrorKind where
  | unreachable
  | unexpected
  | malformedArchive
  | ioFailure
  | validatorIOFailure
deriving DecidableEq, Repr

/-- How each Python exception of the code maps onto the specification's
`SyncError` taxonomy (spec section 7): transport failures are `Unreachable`,
error statuses are `Unexpected`, a failed archive-entry selection or an
unreadable archive is `MalformedArchive`, staging write/rename failures are
`IOFailure`. -/
def specKind : PyExc → SyncErrorKind
  | .urlError => .unreachable
  | .httpErrorExc _ => .unexpected
  | .ioError => .ioFailure
  | .osError => .ioFailure
  | .indexError => .malformedArchive
  | .badZip => .malformedArchive

/-! ## File-system model -/
/-- Look up a path in an association list of files (first match wins). -/
def readList : List (FPath × String) → FPath → Option String
  | [], _ => none
  | e :: rest, p => if e.1 = p then some e.2 else readList rest p

/-- Drop every entry whose path is `q`. -/
def removeList : List (FPath × String) → FPath → List (FPath × String)
  | [], _ => []
  | e :: rest, q => if e.1 = q then removeList rest q else e :: removeList rest q

/-- Whether path `p` lies strictly below directory `dir`. -/
def underDir (dir p : FPath) : Bool :=
  decide (dir.length < p.length) && (p.take dir.length == dir)

/-- Drop every entry whose path lies strictly below directory `dir`. -/
def removeTreeList : List (FPath × String) → FPath → List (FPath × String)
  | [], _ => []
  | e :: rest, dir =>
    if underDir dir e.1 then removeTreeList rest dir
    else e :: removeTreeList rest dir

/-- A file system: an association list from paths to contents, where an
earlier entry shadows later ones for the same path. -/
structure FS where
  entries : List (FPath × String)
deriving DecidableEq, Repr

/-- Read the contents of a file; `none` means the file does not exist. -/
def FS.read (fs : FS) (p : FPath) : Option String :=
  readList fs.entries p

/-- Create or overwrite the file at `p` with contents `v`. -/
def FS.write (fs : FS) (p : FPath) (v : String) : FS :=
  ⟨(p, v) :: fs.entries⟩

/-- Delete the file at `p` (model of `os.unlink`). -/
def FS.remove (fs : FS) (p : FPath) : FS :=
  ⟨removeList fs.entries p⟩

/-- Delete every file strictly below directory `dir` (model of
`shutil.rmtree dir`). -/
def FS.removeTree (fs : FS) (dir : FPath) : FS :=
  ⟨removeTreeList fs.entries dir⟩

/-! ## Civil calendar and the timestamp normalization of `get_epa_updates`

`get_epa_updates` accepts `last_modified` as a raw string, as `int`/`long`/
`float` epoch seconds, as a naive or timezone-aware `datetime.datetime`,
or as a `time.struct_time`, and normalizes every non-string variant to a
`struct_time` which `time.strftime` then renders in the fixed format
`"%a, %d %b %Y %H:%M:%S GMT"`.  The calendar conversions below follow the
standard proleptic-Gregorian civil-from-days / days-from-civil algorithms
(days counted from 1970-01-01), which is what the C library behind
`time.gmtime` and what `datetime`'s calendar arithmetic compute. -/
/-- A civil (calendar) date-time, the field content of a Python
`datetime.datetime` (year, month 1..12, day, hour, minute, second). -/
structure Civil where
  year : Int
  month : Int
  day : Int
  hour : Int
  minute : Int
  second : Int
deriving DecidableEq, Repr

/-- The fields of a Python `time.struct_time` that the format string
`"%a, %d %b %Y %H:%M:%S GMT"` consumes (`tm_wday`: Monday = 0). -/
structure StructTime where
  tm_year : Int
  tm_mon : Int
  tm_mday : Int
  tm_hour : Int
  tm_min : Int
  tm_sec : Int
  tm_wday : Int
deriving DecidableEq, Repr

/-- Civil date of a count of days since 1970-01-01 (proleptic Gregorian). -/
def civilFromDays (z0 : Int) : Int × Int × Int :=
  let z := z0 + 719468
  let era := Int.fdiv z 146097
  let doe := z - era * 146097
  let yoe := (doe - doe / 1460 + doe / 36524 - doe / 146096) / 365
  let y := yoe + era * 400
  let doy := doe - (365 * yoe + yoe / 4 - yoe / 100)
  let mp := (5 * doy + 2) / 153
  let d := doy - (153 * mp + 2) / 5 + 1
  let m := mp + (if mp < 10 then 3 else -9)
  (y + (if m ≤ 2 then 1 else 0), m, d)

/-- Count of days since 1970-01-01 of a civil date (proleptic Gregorian). -/
def daysFromCivil (y0 m d : Int) : Int :=
  let y := y0 - (if m ≤ 2 then 1 else 0)
  let era := Int.fdiv y 400
  let yoe := y - era * 400
  let doy := (153 * (m + (if 2 < m then -3 else 9)) + 2) / 5 + d - 1
  let doe := yoe * 365 + yoe / 4 - yoe / 100 + doy
  era * 146097 + doe - 719468

/-- Day of week (Monday = 0, as in `struct_time.tm_wday`) of a count of
days since 1970-01-01 (which was a Thursday). -/
def weekdayFromDays (z : Int) : Int :=
  (z + 3) % 7

/-- The `struct_time` of a civil date-time: the civil fields plus the
weekday computed from the date, exactly what `datetime.timetuple` fills in
for the fields that our format string consumes. -/
def structTimeOfCivil (c : Civil) : StructTime :=
  { tm_year := c.year, tm_mon := c.month, tm_mday := c.day,
    tm_hour := c.hour, tm_min := c.minute, tm_sec := c.second,
    tm_wday := weekdayFromDays (daysFromCivil c.year c.month c.day) }

/-- The civil date-time (in UTC) of a count of epoch seconds. -/
def epochToCivil (n : Int) : Civil :=
  let z := Int.fdiv n 86400
  let sod := n % 86400
  let ymd := civilFromDays z
  { year := ymd.1, month := ymd.2.1, day := ymd.2.2,
    hour := sod / 3600, minute := (sod % 3600) / 60, second := sod % 60 }

/-- Model of `time.gmtime`: the `struct_time`, in UTC, of a count of epoch
seconds (weekday consistent with the computed date). -/
def gmtime (n : Int) : StructTime :=
  structTimeOfCivil (epochToCivil n)

/-- Seconds since the epoch denoted by a civil date-time read as UTC. -/
def civilToEpoch (c : Civil) : Int :=
  daysFromCivil c.year c.month c.day * 86400
    + c.hour * 3600 + c.minute * 60 + c.second

/-- Model of `datetime.utctimetuple`: a naive datetime returns its own
fields (read as UTC); an aware datetime is first converted to UTC by
subtracting its UTC offset (in minutes), which in `datetime`'s normalized
calendar arithmetic is subtraction at the instant level. -/
def utctimetuple (c : Civil) (tzOffsetMinutes : Option Int) : StructTime :=
  match tzOffsetMinutes with
  | none => structTimeOfCivil c
  | some off => structTimeOfCivil (epochToCivil (civilToEpoch c - 60 * off))

/-- Zero-padded two-digit rendering of `%d`, `%H`, `%M`, `%S`. -/
def pad2 (n : Int) : String :=
  if n < 10 then "0" ++ toString n else toString n

/-- Abbreviated weekday name (`%a`, C locale), `tm_wday` with Monday = 0. -/
def wdayName (w : Int) : String :=
  ["Mon", "Tue", "Wed", "Thu", "Fri", "Sat", "Sun"].getD (w % 7).toNat "Mon"

/-- Abbreviated month name (`%b`, C locale), `tm_mon` ranging over 1..12. -/
def monName (m : Int) : String :=
  ["Jan", "Feb", "Mar", "Apr", "May", "Jun", "Jul", "Aug", "Sep", "Oct",
    "Nov", "Dec"].getD (m - 1).toNat "Jan"

/-- Model of `time.strftime "%a, %d %b %Y %H:%M:%S GMT"`. -/
def strftimeHttp (t : StructTime) : String :=
  wdayName t.tm_wday ++ ", " ++ pad2 t.tm_mday ++ " " ++ monName t.tm_mon
    ++ " " ++ toString t.tm_year ++ " " ++ pad2 t.tm_hour ++ ":"
    ++ pad2 t.tm_min ++ ":" ++ pad2 t.tm_sec ++ " GMT"

/-- The protocol rendering of an instant (epoch seconds): what the code
produces for any non-string variant denoting that instant. -/
def httpDate (n : Int) : String :=
  strftimeHttp (gmtime n)

/-- The tagged union of types `get_epa_updates` accepts for
`last_modified`: a `basestring`, `int`/`long` epoch seconds, a `float`
with integral value (epoch seconds), a `datetime.datetime` (naive when
`tz = none`, aware with a UTC offset in minutes otherwise), or a
`time.struct_time`. -/
inductive LMInput where
  | str (s : String)
  | epochInt (n : Int)
  | epochFloat (n : Int)
  | dt (c : Civil) (tz : Option Int)
  | sTime (t : StructTime)
deriving DecidableEq, Repr

/-- The `last_modified != ''` test of the code: only an empty string is
equal to `''` (in Python 2, a non-string compared to `''` is unequal). -/
def lmIsEmptyStr : LMInput → Bool
  | .str s => s == ""
  | _ => false

/-- The `isinstance` normalization chain of `get_epa_updates`: a datetime
goes through `utctimetuple`, a number through `time.gmtime`, then any
`struct_time` through `strftime`, and a string is used verbatim.  Returns
the header value, or `none` when no branch produced a string. -/
def normalizeLM (v : LMInput) : Option String :=
  match v with
  | .str s => some s
  | .epochInt n => some (strftimeHttp (gmtime n))
  | .epochFloat n => some (strftimeHttp (gmtime n))
  | .dt c tz => some (strftimeHttp (utctimetuple c tz))
  | .sTime t => some (strftimeHttp t)

/-- The If-Modified-Since header value attached by `get_epa_updates`:
absent input or the empty string attaches nothing; otherwise the
normalization chain runs. -/
def lmHeaderValue : Option LMInput → Option String
  | none => none
  | some v => if lmIsEmptyStr v then none else normalizeLM v

/-- Fixed header names of the code. -/
def IF_NONE_MATCH : String := "If-None-Match"

/-- Fixed header names of the code. -/
def IF_MODIFIED_SINCE : String := "If-Modified-Since"

/-- The fixed identifying client-agent header value of the code. -/
def USER_AGENT_VALUE : String :=
  "Mozilla/5.0 compatible urllib on behalf of python-libvin: https://github.com/h3/python-libvin"

/-- The request headers built by `get_epa_updates`: `If-None-Match` when
the etag is truthy (present and non-empty), `If-Modified-Since` when the
normalization produced a value, and the fixed client-agent header. -/
def get_epa_updates_headers (etag : Option String) (lm : Option LMInput) :
    List (String × String) :=
  (match etag with
    | none => []
    | some e => if e = "" then [] else [(IF_NONE_MATCH, e)])
  ++ (match lmHeaderValue lm with
    | none => []
    | some s => [(IF_MODIFIED_SINCE, s)])
  ++ [("User-Agent", USER_AGENT_VALUE)]

/-! ## The environment driving one run of `ensure_latest` -/
/-- The outcome of `opener.open(request)` in `get_epa_updates`, at the
granularity of `urllib2` with the code's `NotFoundHandler` installed:
a transport failure raises `URLError`; an error status raises `HTTPError`
(redirects are followed internally by the default handlers); a 304 is
turned into a returned response with `code = 304` by `http_error_304`;
a 200 returns the response with its `ETag` and `Last-Modified` headers
and a body. -/
inductive HttpOutcome where
  | transportError
  | httpError (code : Nat)
  | notModified
  | ok (newEtag newLastModified : String)
deriving DecidableEq, Repr

/-- The oracle for one run of `ensure_latest`: the outcome every effectful
primitive would have if reached.  `tmpDir`/`tmpName` are the directory and
file name `tempfile.mkstemp()` would pick — its default directory is the
system-wide temporary directory, chosen independently of `target_dir`. -/
structure Env where
  /-- whether the `vehicles.etag` sidecar read succeeds (an `IOError`
  there is caught and degrades to an absent token) -/
  readEtagOk : Bool
  /-- whether the `vehicles.last_modified` sidecar read succeeds -/
  readLMOk : Bool
  /-- outcome of the conditional request -/
  http : HttpOutcome
  /-- whether `mkstemp()` succeeds -/
  mkstempOk : Bool
  /-- directory `mkstemp()` places the temporary file in (the system
  default temporary directory) -/
  tmpDir : String
  /-- process-unique fresh file name picked by `mkstemp()` -/
  tmpName : String
  /-- successive return values of `response.read()`; an empty chunk ends
  the download loop -/
  bodyChunks : List String
  /-- index of the chunk whose write to the temporary file raises
  `IOError`, if any -/
  writeFailAt : Option Nat
  /-- whether `zipfile.ZipFile(file_path)` opens successfully -/
  zipOpenOk : Bool
  /-- `zip_file.namelist()` of the downloaded archive -/
  zipNamelist : List String
  /-- whether `zip_file.extract` succeeds -/
  extractOk : Bool
  /-- contents of the extracted entry -/
  extractContent : String
  /-- whether `os.rename` succeeds -/
  renameOk : Bool
  /-- whether writing the `vehicles.etag` sidecar succeeds -/
  writeEtagOk : Bool
  /-- whether writing the `vehicles.last_modified` sidecar succeeds -/
  writeLMOk : Bool
  /-- whether `shutil.rmtree(extracted_dir)` succeeds -/
  rmtreeOk : Bool
  /-- whether `os.unlink(file_path)` succeeds -/
  unlinkOk : Bool
deriving DecidableEq, Repr

/-- The path of the temporary file `mkstemp()` creates. -/
def Env.tempPath (env : Env) : FPath := [env.tmpDir, env.tmpName]

/-- The canonical dataset file and its two sidecar token files for a
target directory. -/
def canonicalPaths (d : String) : List FPath :=
  [[d, "vehicles.csv"], [d, "vehicles.etag"], [d, "vehicles.last_modified"]]

/-- Well-formedness of the oracle: `mkstemp` creates a fresh file (it
opens with `O_EXCL` and a name drawn to not collide), so its path is none
of the pre-existing canonical files. -/
abbrev EnvWF (d : String) (env : Env) : Prop :=
  env.tempPath ∉ canonicalPaths d

/-! ## The embedding of `ensure_latest` -/
/-- Model of `f.read(2048)`: at most the first 2048 bytes of the file. -/
def pyRead2048 (s : String) : String :=
  String.mk (s.data.take 2048)

/-- The etag loaded at the start of a sync attempt: the first 2048 bytes
of `target_dir/vehicles.etag`, or `None` when the file is missing or the
read raises `IOError` (caught and logged). -/
def loadEtag (d : String) (env : Env) (fs : FS) : Option String :=
  if env.readEtagOk then (fs.read [d, "vehicles.etag"]).map pyRead2048
  else none

/-- The last-modified string loaded at the start of a sync attempt, like
`loadEtag` from `target_dir/vehicles.last_modified`. -/
def loadLastModified (d : String) (env : Env) (fs : FS) : Option String :=
  if env.readLMOk then (fs.read [d, "vehicles.last_modified"]).map pyRead2048
  else none

/-- The headers of the conditional request `ensure_latest` issues: the
loaded tokens, fed to `get_epa_updates` (the loaded last-modified value is
a string, so it takes the `basestring` branch of the normalization). -/
def sentHeaders (d : String) (env : Env) (fs : FS) : List (String × String) :=
  get_epa_updates_headers (loadEtag d env fs)
    ((loadLastModified d env fs).map LMInput.str)

/-- The archive-entry selection of `ensure_latest`:
`namelist = zip_file.namelist(); if len(namelist) != 1: namelist =
filter('vehicles.csv'.__eq__, namelist); name = namelist[0]`.
`none` models the `IndexError` of `namelist[0]` on an empty list. -/
def selectName (namelist : List String) : Option String :=
  let nl := if namelist.length ≠ 1
    then namelist.filter (fun s => "vehicles.csv" = s)
    else namelist
  nl.head?

/-- The body-download loop: `somebytes = response.read(); while
len(somebytes) > 0: temp_file.write(somebytes); somebytes =
response.read()`.  Each chunk is appended to the temporary file; the write
of chunk `i` raises `IOError` when the oracle says so.  Returns the raised
exception (if any), the file system, and the trace extension. -/
def streamLoop (fp : FPath) (chunks : List String) (failAt : Option Nat)
    (i : Nat) (fs : FS) (tr : List Event) :
    Option PyExc × FS × List Event :=
  match chunks with
  | [] => (none, fs, tr)
  | c :: rest =>
    if c = "" then (none, fs, tr)
    else if failAt = some i then (some .ioError, fs, tr)
    else
      streamLoop fp rest failAt (i + 1)
        (fs.write fp (((fs.read fp).getD "") ++ c)) (tr ++ [.fsWrite fp])

/-- The body of the inner `try` of `ensure_latest`: open the archive,
select the entry, extract it into `target_dir/tmp`, atomically rename the
extracted file over `target_dir/vehicles.csv`, then write the two sidecar
token files.  No step here catches an exception. -/
def innerBody (d : String) (env : Env) (newEtag newLM : String)
    (fs : FS) (tr : List Event) : Except PyExc Unit × FS × List Event :=
  if !env.zipOpenOk then (.error .badZip, fs, tr)
  else
    match selectName env.zipNamelist with
    | none => (.error .indexError, fs, tr)
    | some name =>
      if !env.extractOk then (.error .ioError, fs, tr)
      else
        let ep : FPath := [d, "tmp", name]
        let fs1 := fs.write ep env.extractContent
        let tr1 := tr ++ [.fsWrite ep]
        let tgt : FPath := [d, "vehicles.csv"]
        if !env.renameOk then (.error .osError, fs1, tr1)
        else
          let content := (fs1.read ep).getD ""
          let fs2 := (fs1.remove ep).write tgt content
          let tr2 := tr1 ++ [.fsRename ep tgt]
          if !env.writeEtagOk then (.error .ioError, fs2, tr2)
          else
            let fs3 := fs2.write [d, "vehicles.etag"] newEtag
            let tr3 := tr2 ++ [.fsWrite [d, "vehicles.etag"]]
            if !env.writeLMOk then (.error .ioError, fs3, tr3)
            else
              let fs4 := fs3.write [d, "vehicles.last_modified"] newLM
              let tr4 := tr3 ++ [.fsWrite [d, "vehicles.last_modified"]]
              (.ok (), fs4, tr4)

/-- The inner `finally` of `ensure_latest`: `try: rmtree(extracted_dir)
except OSError: logger.exception(...)` — a cleanup failure is caught and
only logged, never escalated. -/
def rmtreeStep (d : String) (env : Env) (fs : FS) (tr : List Event) :
    FS × List Event :=
  if env.rmtreeOk then
    (fs.removeTree [d, "tmp"], tr ++ [.fsRemoveTree [d, "tmp"]])
  else (fs, tr)

/-- The modified branch between `mkstemp` and the outer `finally`: stream
the body, then run the inner `try` (whose `finally` always runs the rmtree
step, while exceptions from the `try` body keep propagating). -/
def modifiedBranch (d : String) (env : Env) (newEtag newLM : String)
    (fp : FPath) (fs : FS) (tr : List Event) :
    Except PyExc Unit × FS × List Event :=
  let sl := streamLoop fp env.bodyChunks env.writeFailAt 0 fs tr
  match sl.1 with
  | some e => (.error e, sl.2.1, sl.2.2)
  | none =>
    let ib := innerBody d env newEtag newLM sl.2.1 sl.2.2
    let fin := rmtreeStep d env ib.2.1 ib.2.2
    (ib.1, fin.1, fin.2)

deriving instance DecidableEq for Except

/-- The full result of a run: the Python-level outcome (`.ok changed` or a
raised exception), the final file system, and the trace. -/
structure RunOut where
  res : Except PyExc Bool
  fs : FS
  tr : List Event
deriving DecidableEq, Repr

/-- The trace-extension of the outcome of the modified branch, as `return
True` / re-raise after the outer `finally` of the code. -/
def finalRes : Except PyExc Unit → Except PyExc Bool
  | .ok _ => .ok true
  | .error e => .error e

/-- The modified branch of `ensure_latest` (response code not 304): raise
`OSError` if `mkstemp()` fails; otherwise create the temporary file, run
`modifiedBranch`, and model the outer `finally` of the code: `if
os.path.exists(file_path): os.unlink(file_path)` — a successful unlink
removes the file, a failing unlink raises `OSError`, replacing the
in-flight outcome (Python `finally` semantics). -/
def modifiedCase (d : String) (env : Env) (fs0 : FS) (newEtag newLM : String) :
    RunOut :=
  if !env.mkstempOk then
    ⟨.error .osError, fs0, [.reqSent (sentHeaders d env fs0)]⟩
  else if (((modifiedBranch d env newEtag newLM env.tempPath
      (fs0.write env.tempPath "")
      [.reqSent (sentHeaders d env fs0), .fsWrite env.tempPath]).2.1.read
        env.tempPath).isSome) then
    if env.unlinkOk then
      ⟨finalRes (modifiedBranch d env newEtag newLM env.tempPath
          (fs0.write env.tempPath "")
          [.reqSent (sentHeaders d env fs0), .fsWrite env.tempPath]).1,
        (modifiedBranch d env newEtag newLM env.tempPath
          (fs0.write env.tempPath "")
          [.reqSent (sentHeaders d env fs0),
            .fsWrite env.tempPath]).2.1.remove env.tempPath,
        (modifiedBranch d env newEtag newLM env.tempPath
          (fs0.write env.tempPath "")
          [.reqSent (sentHeaders d env fs0), .fsWrite env.tempPath]).2.2
          ++ [.fsRemoveFile env.tempPath]⟩
    else
      ⟨.error .osError,
        (modifiedBranch d env newEtag newLM env.tempPath
          (fs0.write env.tempPath "")
          [.reqSent (sentHeaders d env fs0), .fsWrite env.tempPath]).2.1,
        (modifiedBranch d env newEtag newLM env.tempPath
          (fs0.write env.tempPath "")
          [.reqSent (sentHeaders d env fs0), .fsWrite env.tempPath]).2.2⟩
  else
    ⟨finalRes (modifiedBranch d env newEtag newLM env.tempPath
        (fs0.write env.tempPath "")
        [.reqSent (sentHeaders d env fs0), .fsWrite env.tempPath]).1,
      (modifiedBranch d env newEtag newLM env.tempPath
        (fs0.write env.tempPath "")
        [.reqSent (sentHeaders d env fs0), .fsWrite env.tempPath]).2.1,
      (modifiedBranch d env newEtag newLM env.tempPath
        (fs0.write env.tempPath "")
        [.reqSent (sentHeaders d env fs0), .fsWrite env.tempPath]).2.2⟩

/-- The embedding of `ensure_latest(target_dir)` for an explicitly given
target directory `d` (when `target_dir` is `None` the code uses the
package-resource location `libvin/epa` with the same control flow).
Loads the two sidecar tokens (read failures degrade to absent), issues the
conditional request, returns `False` on 304, and otherwise downloads into
a `mkstemp()` file, extracts, renames, persists tokens, and cleans up,
with the exact `try/finally` structure of the code. -/
def ensure_latest (d : String) (env : Env) (fs0 : FS) : RunOut :=
  match env.http with
  | .transportError => ⟨.error .urlError, fs0, [.reqSent (sentHeaders d env fs0)]⟩
  | .httpError c =>
    ⟨.error (.httpErrorExc c), fs0, [.reqSent (sentHeaders d env fs0)]⟩
  | .notModified => ⟨.ok false, fs0, [.reqSent (sentHeaders d env fs0)]⟩
  | .ok newEtag newLM => modifiedCase d env fs0 newEtag newLM

/-! ## Trace predicates and run-level lemmas -/
/-- Whether an event mutates the file system at all. -/
def mutates : Event → Bool
  | .reqSent _ => false
  | _ => true

/-- Whether an event is a successful rename. -/
def isRenameEv : Event → Bool
  | .fsRename _ _ => true
  | _ => false

/-- Whether an event writes one of the two sidecar token files of `d`. -/
def isTokWrite (d : String) : Event → Bool
  | .fsWrite p =>
    decide (p = [d, "vehicles.etag"]) || decide (p = [d, "vehicles.last_modified"])
  | _ => false

/-- Scans a trace in order: `true` iff no write to a sidecar token file
occurs strictly before the first successful rename. -/
def noTokBeforeRenameB (d : String) : List Event → Bool
  | [] => true
  | e :: rest =>
    if isRenameEv e then true
    else !isTokWrite d e && noTokBeforeRenameB d rest

/-! ## Concrete run inputs used by witnesses and counterexamples -/
/-- A fully successful oracle: stored tag `"abc"` differs from the remote
tag `"xyz"`, the remote returns a one-entry archive, and every effectful
step succeeds. -/
def envAllOk : Env :=
  { readEtagOk := true, readLMOk := true,
    http := .ok "xyz" "Sun, 06 Nov 1994 08:49:37 GMT",
    mkstempOk := true, tmpDir := "/tmp", tmpName := "tmpZq7R1x",
    bodyChunks := ["PKbytes"], writeFailAt := none, zipOpenOk := true,
    zipNamelist := ["vehicles.csv"], extractOk := true,
    extractContent := "make,model,year", renameOk := true,
    writeEtagOk := true, writeLMOk := true, rmtreeOk := true,
    unlinkOk := true }

/-- A prior state: dataset plus both sidecar tokens present. -/
def fsStart : FS :=
  ⟨[(["/data", "vehicles.csv"], "OLD"),
    (["/data", "vehicles.etag"], "abc"),
    (["/data", "vehicles.last_modified"], "Mon, 01 Jan 1996 00:00:00 GMT")]⟩

/-- An over-long stored opaque tag (2049 bytes). -/
def longTagA : String := String.mk (List.replicate 2049 'a')

/-- An over-long stored last-modified value (2049 bytes). -/
def longTagB : String := String.mk (List.replicate 2049 'b')

/-- A prior state whose sidecar tokens both exceed the 2048-byte read. -/
def fsLong : FS :=
  ⟨[(["/d", "vehicles.etag"], longTagA),
    (["/d", "vehicles.last_modified"], longTagB)]⟩

theorem FS.read_write_self (fs : FS) (p : FPath) (v : String) :
    (fs.write p v).read p = some v := by
  simp [FS.read, FS.write, readList]

theorem FS.read_write_ne (fs : FS) (p q : FPath) (v : String) (h : q ≠ p) :
    (fs.write q v).read p = fs.read p := by
  simp [FS.read, FS.write, readList, h]

theorem FS.read_remove_ne (fs : FS) (p q : FPath) (h : q ≠ p) :
    (fs.remove q).read p = fs.read p := by
  unfold FS.read FS.remove
  simp only
  induction fs.entries with
  | nil => rfl
  | cons e rest ih =>
    by_cases hq : e.1 = q
    · have hp : e.1 ≠ p := by rw [hq]; exact h
      simp [removeList, readList, hq, hp, ih, h]
    · by_cases hp : e.1 = p
      · simp [removeList, readList, hq, hp, Ne.symm h]
      · simp [removeList, readList, hq, hp, ih]

theorem FS.read_remove_self (fs : FS) (p : FPath) :
    (fs.remove p).read p = none := by
  unfold FS.read FS.remove
  simp only
  induction fs.entries with
  | nil => rfl
  | cons e rest ih =>
    by_cases hp : e.1 = p
    · simp [removeList, hp, ih]
    · simp [removeList, readList, hp, ih]

theorem FS.read_removeTree_not_under (fs : FS) (dir p : FPath)
    (h : underDir dir p = false) :
    (fs.removeTree dir).read p = fs.read p := by
  unfold FS.read FS.removeTree
  simp only
  induction fs.entries with
  | nil => rfl
  | cons e rest ih =>
    by_cases hu : underDir dir e.1 = true
    · have hp : e.1 ≠ p := by
        intro hc; rw [hc] at hu; rw [hu] at h; exact Bool.true_eq_false.mp h
      simp [removeTreeList, readList, hu, hp, ih]
    · by_cases hp : e.1 = p
      · simp [removeTreeList, readList, hu, hp, h]
      · simp [removeTreeList, readList, hu, hp, ih]

theorem FS.read_removeTree_under (fs : FS) (dir p : FPath)
    (h : underDir dir p = true) :
    (fs.removeTree dir).read p = none := by
  unfold FS.read FS.removeTree
  simp only
  induction fs.entries with
  | nil => rfl
  | cons e rest ih =>
    by_cases hp : e.1 = p
    · have hu : underDir dir e.1 = true := by rw [hp]; exact h
      simp [removeTreeList, readList, hu, ih]
    · by_cases hu : underDir dir e.1 = true
      · simp [removeTreeList, readList, hu, ih]
      · simp [removeTreeList, readList, hu, hp, ih]

theorem noTokBeforeRenameB_of_decomp (d : String) (pre post : List Event)
    (hpre : ∀ e ∈ pre, isTokWrite d e = false)
    (hpost : post = [] ∨ ∃ e rest, post = e :: rest ∧ isRenameEv e = true) :
    noTokBeforeRenameB d (pre ++ post) = true := by
  induction pre with
  | nil =>
    rcases hpost with h | ⟨e, rest, rfl, hre⟩
    · simp [h, noTokBeforeRenameB]
    · simp [noTokBeforeRenameB, hre]
  | cons a as ih =>
    have ha := hpre a (List.mem_cons_self a as)
    by_cases hr : isRenameEv a = true
    · simp [noTokBeforeRenameB, hr]
    · simp only [List.cons_append, noTokBeforeRenameB]
      rw [if_neg hr]
      simp [ha, ih (fun e he => hpre e (List.mem_cons_of_mem a he))]

theorem streamLoop_fs_read_ne (fp : FPath) (chunks : List String)
    (failAt : Option Nat) (i : Nat) (fs : FS) (tr : List Event) (p : FPath)
    (h : fp ≠ p) :
    ((streamLoop fp chunks failAt i fs tr).2.1).read p = fs.read p := by
  induction chunks generalizing i fs tr with
  | nil => rfl
  | cons c rest ih =>
    by_cases hc : c = ""
    · simp [streamLoop, hc]
    · by_cases hf : failAt = some i
      · simp [streamLoop, hc, hf]
      · simp only [streamLoop, if_neg hc, if_neg hf]
        rw [ih]
        exact FS.read_write_ne _ _ _ _ h

theorem streamLoop_tr_append (fp : FPath) (chunks : List String)
    (failAt : Option Nat) (i : Nat) (fs : FS) (tr : List Event) :
    ∃ ws, (streamLoop fp chunks failAt i fs tr).2.2 = tr ++ ws
      ∧ ∀ e ∈ ws, e = Event.fsWrite fp := by
  induction chunks generalizing i fs tr with
  | nil => exact ⟨[], by simp [streamLoop]⟩
  | cons c rest ih =>
    by_cases hc : c = ""
    · exact ⟨[], by simp [streamLoop, hc]⟩
    · by_cases hf : failAt = some i
      · exact ⟨[], by simp [streamLoop, hc, hf]⟩
      · obtain ⟨ws, hws, hall⟩ :=
          ih (i + 1) (fs.write fp (((fs.read fp).getD "") ++ c))
            (tr ++ [Event.fsWrite fp])
        refine ⟨Event.fsWrite fp :: ws, ?_, ?_⟩
        · simp only [streamLoop, if_neg hc, if_neg hf]
          rw [hws, List.append_assoc]
          rfl
        · intro e he
          rcases List.mem_cons.mp he with h | h
          · exact h
          · exact hall e h

theorem streamLoop_ok_of_none (fp : FPath) (chunks : List String) (i : Nat)
    (fs : FS) (tr : List Event) :
    (streamLoop fp chunks none i fs tr).1 = none := by
  induction chunks generalizing i fs tr with
  | nil => rfl
  | cons c rest ih =>
    by_cases hc : c = ""
    · simp [streamLoop, hc]
    · simp only [streamLoop, if_neg hc]
      rw [if_neg (by simp)]
      exact ih _ _ _

theorem under_tmp_of_len_two (d x : String) :
    underDir [d, "tmp"] [d, x] = false := by
  simp [underDir]

theorem under_tmp_extracted (d n : String) :
    underDir [d, "tmp"] [d, "tmp", n] = true := by
  simp [underDir]

theorem rmtreeStep_read (d : String) (env : Env) (fs : FS) (tr : List Event)
    (p : FPath) (hund : underDir [d, "tmp"] p = false) :
    ((rmtreeStep d env fs tr).1).read p = fs.read p := by
  cases hrm : env.rmtreeOk
  · simp [rmtreeStep, hrm]
  · simp [rmtreeStep, hrm]
    exact FS.read_removeTree_not_under _ _ _ hund

theorem rmtreeStep_tr_mem (d : String) (env : Env) (fs : FS)
    (tr : List Event) (e : Event) (h : e ∈ tr) :
    e ∈ (rmtreeStep d env fs tr).2 := by
  cases hrm : env.rmtreeOk
  · simpa [rmtreeStep, hrm] using h
  · simp [rmtreeStep, hrm]
    exact Or.inl h

theorem rmtreeStep_tr_mono (d : String) (env : Env) (fs : FS)
    (tr : List Event) :
    ∃ ext, (rmtreeStep d env fs tr).2 = tr ++ ext := by
  cases hrm : env.rmtreeOk
  · exact ⟨[], by simp [rmtreeStep, hrm]⟩
  · exact ⟨[.fsRemoveTree [d, "tmp"]], by simp [rmtreeStep, hrm]⟩

theorem innerBody_rename_mem (d : String) (env : Env) (nE nLM : String)
    (fs : FS) (tr : List Event) (name : String)
    (hsel : selectName env.zipNamelist = some name)
    (hz : env.zipOpenOk = true) (hext : env.extractOk = true)
    (hren : env.renameOk = true) :
    Event.fsRename [d, "tmp", name] [d, "vehicles.csv"]
      ∈ (innerBody d env nE nLM fs tr).2.2 := by
  unfold innerBody
  cases het : env.writeEtagOk <;> cases hlm : env.writeLMOk <;>
    simp [hz, hsel, hext, hren, het, hlm]

theorem innerBody_frame (d : String) (env : Env) (nE nLM : String)
    (fs : FS) (tr : List Event) (p : FPath)
    (hund : underDir [d, "tmp"] p = false)
    (hnr : ∀ s t, Event.fsRename s t ∉ (innerBody d env nE nLM fs tr).2.2) :
    ((innerBody d env nE nLM fs tr).2.1).read p = fs.read p := by
  cases hz : env.zipOpenOk
  · simp [innerBody, hz]
  · rcases hsel : selectName env.zipNamelist with _ | name
    · simp [innerBody, hz, hsel]
    · cases hext : env.extractOk
      · simp [innerBody, hz, hsel, hext]
      · cases hren : env.renameOk
        · have hep : ([d, "tmp", name] : FPath) ≠ p := by
            intro hc
            rw [← hc] at hund
            rw [under_tmp_extracted] at hund
            exact Bool.true_eq_false.mp hund
          simp [innerBody, hz, hsel, hext, hren]
          exact FS.read_write_ne _ _ _ _ hep
        · exact absurd
            (innerBody_rename_mem d env nE nLM fs tr name hsel hz hext hren)
            (hnr _ _)

theorem innerBody_tr_mono (d : String) (env : Env) (nE nLM : String)
    (fs : FS) (tr : List Event) :
    ∃ ext, (innerBody d env nE nLM fs tr).2.2 = tr ++ ext := by
  cases hz : env.zipOpenOk
  · exact ⟨[], by simp [innerBody, hz]⟩
  · rcases hsel : selectName env.zipNamelist with _ | name
    · exact ⟨[], by simp [innerBody, hz, hsel]⟩
    · cases hext : env.extractOk
      · exact ⟨[], by simp [innerBody, hz, hsel, hext]⟩
      · cases hren : env.renameOk
        · exact ⟨[.fsWrite [d, "tmp", name]],
            by simp [innerBody, hz, hsel, hext, hren]⟩
        · cases het : env.writeEtagOk
          · exact ⟨[.fsWrite [d, "tmp", name],
              .fsRename [d, "tmp", name] [d, "vehicles.csv"]],
              by simp [innerBody, hz, hsel, hext, hren, het]⟩
          · cases hlm : env.writeLMOk
            · exact ⟨[.fsWrite [d, "tmp", name],
                .fsRename [d, "tmp", name] [d, "vehicles.csv"],
                .fsWrite [d, "vehicles.etag"]],
                by simp [innerBody, hz, hsel, hext, hren, het, hlm]⟩
            · exact ⟨[.fsWrite [d, "tmp", name],
                .fsRename [d, "tmp", name] [d, "vehicles.csv"],
                .fsWrite [d, "vehicles.etag"],
                .fsWrite [d, "vehicles.last_modified"]],
                by simp [innerBody, hz, hsel, hext, hren, het, hlm]⟩

theorem mb_tr_mono (d : String) (env : Env) (nE nLM : String) (fp : FPath)
    (fs : FS) (tr : List Event) :
    ∃ ext, (modifiedBranch d env nE nLM fp fs tr).2.2 = tr ++ ext := by
  unfold modifiedBranch
  rcases hsl : streamLoop fp env.bodyChunks env.writeFailAt 0 fs tr
    with ⟨o, fs1, tr1⟩
  obtain ⟨ws, hws, hall⟩ :=
    streamLoop_tr_append fp env.bodyChunks env.writeFailAt 0 fs tr
  rw [hsl] at hws
  have hws' : tr1 = tr ++ ws := hws
  subst hws'
  cases o with
  | some e => exact ⟨ws, rfl⟩
  | none =>
    obtain ⟨ext2, hext2⟩ := innerBody_tr_mono d env nE nLM fs1 (tr ++ ws)
    obtain ⟨ext3, hext3⟩ := rmtreeStep_tr_mono d env
      (innerBody d env nE nLM fs1 (tr ++ ws)).2.1
      (innerBody d env nE nLM fs1 (tr ++ ws)).2.2
    refine ⟨ws ++ ext2 ++ ext3, ?_⟩
    have hfin : (rmtreeStep d env (innerBody d env nE nLM fs1 (tr ++ ws)).2.1
        (innerBody d env nE nLM fs1 (tr ++ ws)).2.2).2
        = tr ++ (ws ++ ext2 ++ ext3) := by
      rw [hext3, hext2]
      simp [List.append_assoc]
    exact hfin

theorem mb_frame (d : String) (env : Env) (nE nLM : String) (fp : FPath)
    (fs : FS) (tr : List Event) (p : FPath)
    (hfp : fp ≠ p) (hund : underDir [d, "tmp"] p = false)
    (hnr : ∀ s t,
      Event.fsRename s t ∉ (modifiedBranch d env nE nLM fp fs tr).2.2) :
    ((modifiedBranch d env nE nLM fp fs tr).2.1).read p = fs.read p := by
  unfold modifiedBranch at hnr ⊢
  rcases hsl : streamLoop fp env.bodyChunks env.writeFailAt 0 fs tr
    with ⟨o, fs1, tr1⟩
  rw [hsl] at hnr
  have hfs1 : fs1.read p = fs.read p := by
    have h := streamLoop_fs_read_ne fp env.bodyChunks env.writeFailAt 0
      fs tr p hfp
    rw [hsl] at h
    exact h
  cases o with
  | some e => exact hfs1
  | none =>
    have hnr2 : ∀ s t,
        Event.fsRename s t ∉ (innerBody d env nE nLM fs1 tr1).2.2 := by
      intro s t hmem
      exact hnr s t (rmtreeStep_tr_mem d env _ _ _ hmem)
    have h1 := innerBody_frame d env nE nLM fs1 tr1 p hund hnr2
    have h2 := rmtreeStep_read d env (innerBody d env nE nLM fs1 tr1).2.1
      (innerBody d env nE nLM fs1 tr1).2.2 p hund
    have hgoal : ((rmtreeStep d env (innerBody d env nE nLM fs1 tr1).2.1
        (innerBody d env nE nLM fs1 tr1).2.2).1).read p = fs.read p := by
      rw [h2, h1, hfs1]
    exact hgoal

theorem modifiedCase_tr_sup (d : String) (env : Env) (fs0 : FS)
    (nE nLM : String) (hmk : env.mkstempOk = true) (e : Event)
    (h : e ∈ (modifiedBranch d env nE nLM env.tempPath
      (fs0.write env.tempPath "")
      [.reqSent (sentHeaders d env fs0), .fsWrite env.tempPath]).2.2) :
    e ∈ (modifiedCase d env fs0 nE nLM).tr := by
  unfold modifiedCase
  rw [hmk]
  rw [if_neg (by simp)]
  split
  · split
    · exact List.mem_append_left _ h
    · exact h
  · exact h

theorem modifiedCase_fs_read (d : String) (env : Env) (fs0 : FS)
    (nE nLM : String) (p : FPath) (hmk : env.mkstempOk = true)
    (hfp : env.tempPath ≠ p) :
    ((modifiedCase d env fs0 nE nLM).fs).read p
      = ((modifiedBranch d env nE nLM env.tempPath
        (fs0.write env.tempPath "")
        [.reqSent (sentHeaders d env fs0),
          .fsWrite env.tempPath]).2.1).read p := by
  unfold modifiedCase
  rw [hmk]
  rw [if_neg (by simp)]
  split
  · split
    · exact FS.read_remove_ne _ _ _ hfp
    · rfl
  · rfl

theorem run_frame (d : String) (env : Env) (fs0 : FS) (p : FPath)
    (hp : p ∈ canonicalPaths d) (hwf : EnvWF d env)
    (hnr : ∀ s t, Event.fsRename s t ∉ (ensure_latest d env fs0).tr) :
    ((ensure_latest d env fs0).fs).read p = fs0.read p := by
  have hfp : env.tempPath ≠ p := fun hc => hwf (hc ▸ hp)
  have hund : underDir [d, "tmp"] p = false := by
    have hp' := hp
    simp only [canonicalPaths, List.mem_cons, List.not_mem_nil,
      or_false] at hp'
    rcases hp' with rfl | rfl | rfl
    · exact under_tmp_of_len_two d "vehicles.csv"
    · exact under_tmp_of_len_two d "vehicles.etag"
    · exact under_tmp_of_len_two d "vehicles.last_modified"
  unfold ensure_latest at hnr ⊢
  cases hhttp : env.http with
  | transportError => rfl
  | httpError c => rfl
  | notModified => rfl
  | ok nE nLM =>
    rw [hhttp] at hnr
    cases hmk : env.mkstempOk with
    | false =>
      unfold modifiedCase
      rw [hmk]
      rfl
    | true =>
      have hnr' : ∀ s t, Event.fsRename s t ∉ (modifiedBranch d env nE nLM
          env.tempPath (fs0.write env.tempPath "")
          [.reqSent (sentHeaders d env fs0),
            .fsWrite env.tempPath]).2.2 := by
        intro s t hmem
        exact hnr s t (modifiedCase_tr_sup d env fs0 nE nLM hmk _ hmem)
      rw [modifiedCase_fs_read d env fs0 nE nLM p hmk hfp]
      rw [mb_frame d env nE nLM env.tempPath (fs0.write env.tempPath "")
        _ p hfp hund hnr']
      exact FS.read_write_ne _ _ _ _ hfp

/-! ## The claims -/
/-- C1: for every sync attempt that fails at or before the atomic rename
step (equivalently: the run raised an exception and its trace contains no
successful rename), the canonical dataset file and both sidecar token
files read exactly as they did before the call. -/
theorem c1_failure_at_or_before_rename_leaves_state (d : String) (env : Env)
    (fs0 : FS) (e : PyExc) (hwf : EnvWF d env)
    (_hres : (ensure_latest d env fs0).res = .error e)
    (hnr : (ensure_latest d env fs0).tr.any isRenameEv = false) :
    ((ensure_latest d env fs0).fs).read [d, "vehicles.csv"]
        = fs0.read [d, "vehicles.csv"]
      ∧ ((ensure_latest d env fs0).fs).read [d, "vehicles.etag"]
        = fs0.read [d, "vehicles.etag"]
      ∧ ((ensure_latest d env fs0).fs).read [d, "vehicles.last_modified"]
        = fs0.read [d, "vehicles.last_modified"] := by
  have hnr' : ∀ s t, Event.fsRename s t ∉ (ensure_latest d env fs0).tr := by
    intro s t hmem
    have hany : (ensure_latest d env fs0).tr.any isRenameEv = true :=
      List.any_eq_true.mpr ⟨_, hmem, rfl⟩
    rw [hnr] at hany
    exact Bool.false_ne_true hany
  exact ⟨run_frame d env fs0 _ (by simp [canonicalPaths]) hwf hnr',
    run_frame d env fs0 _ (by simp [canonicalPaths]) hwf hnr',
    run_frame d env fs0 _ (by simp [canonicalPaths]) hwf hnr'⟩

/-- C1 witness: a concrete failing run (HTTP 404, raised before any
staging) leaves all three canonical files as they were. -/
theorem c1_witness :
    ((ensure_latest "/data" { envAllOk with http := .httpError 404 }
        fsStart).fs).read ["/data", "vehicles.csv"]
        = fsStart.read ["/data", "vehicles.csv"]
      ∧ ((ensure_latest "/data" { envAllOk with http := .httpError 404 }
        fsStart).fs).read ["/data", "vehicles.etag"]
        = fsStart.read ["/data", "vehicles.etag"]
      ∧ ((ensure_latest "/data" { envAllOk with http := .httpError 404 }
        fsStart).fs).read ["/data", "vehicles.last_modified"]
        = fsStart.read ["/data", "vehicles.last_modified"] :=
  c1_failure_at_or_before_rename_leaves_state "/data"
    { envAllOk with http := .httpError 404 } fsStart (.httpErrorExc 404)
    (by decide) (by decide) (by decide)

/-- C2: when the conditional request answers 304 (not modified), the call
returns Changed = false, the file system is exactly unchanged, and the
trace contains no mutating event at all. -/
theorem c2_not_modified_no_writes (d : String) (env : Env) (fs0 : FS)
    (h304 : env.http = .notModified) :
    (ensure_latest d env fs0).res = .ok false
  ∧ (ensure_latest d env fs0).fs = fs0
  ∧ (ensure_latest d env fs0).tr.all (fun ev => !mutates ev) = true := by
  refine ⟨?_, ?_, ?_⟩ <;> simp [ensure_latest, h304, mutates]

/-- C2 witness at a concrete 304 run. -/
theorem c2_witness :
    (ensure_latest "/data" { envAllOk with http := .notModified }
        fsStart).res = .ok false
  ∧ (ensure_latest "/data" { envAllOk with http := .notModified }
      fsStart).fs = fsStart
  ∧ (ensure_latest "/data" { envAllOk with http := .notModified }
      fsStart).tr.all (fun ev => !mutates ev) = true :=
  c2_not_modified_no_writes "/data" { envAllOk with http := .notModified }
    fsStart rfl

/-- C5: a transport failure or an error status raised by the opener makes
the sync fail with an exception whose specification kind is Unreachable or
Unexpected, with the file system exactly unchanged and no mutating
event. -/
theorem c5_other_status_or_transport (d : String) (env : Env) (fs0 : FS)
    (c : Nat)
    (h : env.http = .transportError ∨ env.http = .httpError c) :
    ∃ e, (ensure_latest d env fs0).res = .error e
      ∧ (specKind e = .unreachable ∨ specKind e = .unexpected)
      ∧ (ensure_latest d env fs0).fs = fs0
      ∧ (ensure_latest d env fs0).tr.all (fun ev => !mutates ev) = true := by
  rcases h with h | h
  · refine ⟨.urlError, ?_, Or.inl rfl, ?_, ?_⟩ <;>
      simp [ensure_latest, h, mutates]
  · refine ⟨.httpErrorExc c, ?_, Or.inr rfl, ?_, ?_⟩ <;>
      simp [ensure_latest, h, mutates]

/-- C5 witness at a concrete 500 response. -/
theorem c5_witness :
    ∃ e, (ensure_latest "/data" { envAllOk with http := .httpError 500 }
        fsStart).res = .error e
      ∧ (specKind e = .unreachable ∨ specKind e = .unexpected)
      ∧ (ensure_latest "/data" { envAllOk with http := .httpError 500 }
          fsStart).fs = fsStart
      ∧ (ensure_latest "/data" { envAllOk with http := .httpError 500 }
          fsStart).tr.all (fun ev => !mutates ev) = true :=
  c5_other_status_or_transport "/data"
    { envAllOk with http := .httpError 500 } fsStart 500 (Or.inr rfl)

theorem streamLoop_none_of_failAt_none (env : Env) (fp : FPath) (fs : FS)
    (tr : List Event) (hwfa : env.writeFailAt = none) :
    (streamLoop fp env.bodyChunks env.writeFailAt 0 fs tr).1 = none := by
  rw [hwfa]
  exact streamLoop_ok_of_none fp env.bodyChunks 0 fs tr

theorem mb_res_of_sel_none (d : String) (env : Env) (nE nLM : String)
    (fp : FPath) (fs : FS) (tr : List Event)
    (hwfa : env.writeFailAt = none) (hz : env.zipOpenOk = true)
    (hsel : selectName env.zipNamelist = none) :
    (modifiedBranch d env nE nLM fp fs tr).1 = .error .indexError := by
  unfold modifiedBranch
  rcases hsl : streamLoop fp env.bodyChunks env.writeFailAt 0 fs tr
    with ⟨o, fs1, tr1⟩
  have ho : o = none := by
    have h := streamLoop_none_of_failAt_none env fp fs tr hwfa
    rw [hsl] at h
    exact h
  subst ho
  simp [innerBody, hz, hsel]

/-- C3: the archive-entry selection of the code.  A one-entry archive is
accepted whatever the entry's name; with two or more entries the one named
`vehicles.csv` is selected; with zero entries, or several entries none of
which is named `vehicles.csv`, the selection raises (`namelist[0]` on an
empty list) and the sync fails with an exception of specification kind
MalformedArchive. -/
theorem c3_archive_selection :
    (∀ x : String, selectName [x] = some x)
  ∧ (∀ l : List String, 2 ≤ l.length → "vehicles.csv" ∈ l →
      selectName l = some "vehicles.csv")
  ∧ (∀ l : List String, l = [] ∨ (2 ≤ l.length ∧ "vehicles.csv" ∉ l) →
      selectName l = none)
  ∧ (∀ (d : String) (env : Env) (fs0 : FS) (nE nLM : String),
      env.http = .ok nE nLM → env.mkstempOk = true →
      env.writeFailAt = none → env.zipOpenOk = true →
      env.unlinkOk = true → selectName env.zipNamelist = none →
      (ensure_latest d env fs0).res = .error .indexError
        ∧ specKind .indexError = .malformedArchive) := by
  refine ⟨?_, ?_, ?_, ?_⟩
  · intro x
    simp [selectName]
  · intro l h2 hmem
    have hne : l.length ≠ 1 := by omega
    simp only [selectName, hne, ne_eq, not_false_iff, if_true]
    have hmemf : "vehicles.csv" ∈ l.filter (fun s => "vehicles.csv" = s) :=
      List.mem_filter.mpr ⟨hmem, by simp⟩
    rcases hf : l.filter (fun s => "vehicles.csv" = s) with _ | ⟨a, as⟩
    · rw [hf] at hmemf
      exact absurd hmemf (List.not_mem_nil _)
    · have ha : a ∈ l.filter (fun s => "vehicles.csv" = s) := by
        rw [hf]
        exact List.mem_cons_self a as
      have ha2 : "vehicles.csv" = a := by
        have := (List.mem_filter.mp ha).2
        exact of_decide_eq_true this
      simp [← ha2]
  · intro l h
    rcases h with rfl | ⟨h2, hnot⟩
    · simp [selectName]
    · have hne : l.length ≠ 1 := by omega
      have hfil : l.filter (fun s => "vehicles.csv" = s) = [] := by
        rw [List.filter_eq_nil_iff]
        intro a ha
        simp only [decide_eq_true_eq]
        intro hc
        rw [hc] at hnot
        exact hnot ha
      simp [selectName, hne, hfil]
  · intro d env fs0 nE nLM hhttp hmk hwfa hz hunl hsel
    refine ⟨?_, rfl⟩
    have hres := mb_res_of_sel_none d env nE nLM env.tempPath
      (fs0.write env.tempPath "")
      [.reqSent (sentHeaders d env fs0), .fsWrite env.tempPath] hwfa hz hsel
    simp only [ensure_latest, hhttp]
    unfold modifiedCase
    rw [hmk]
    rw [if_neg (by simp)]
    split
    all_goals simp_all [finalRes]

/-- C3 witness: the three selection behaviours at concrete archives, and a
concrete run on a two-entry archive with no matching name failing with
MalformedArchive. -/
theorem c3_witness :
    selectName ["weird.csv"] = some "weird.csv"
  ∧ selectName ["a.csv", "vehicles.csv"] = some "vehicles.csv"
  ∧ selectName ["a.csv", "b.csv"] = none
  ∧ ((ensure_latest "/data"
        { envAllOk with zipNamelist := ["a.csv", "b.csv"] } fsStart).res
        = .error .indexError
      ∧ specKind .indexError = .malformedArchive) :=
  ⟨c3_archive_selection.1 "weird.csv",
    c3_archive_selection.2.1 ["a.csv", "vehicles.csv"] (by decide)
      (by decide),
    c3_archive_selection.2.2.1 ["a.csv", "b.csv"]
      (Or.inr ⟨by decide, by decide⟩),
    c3_archive_selection.2.2.2 "/data"
      { envAllOk with zipNamelist := ["a.csv", "b.csv"] } fsStart
      "xyz" "Sun, 06 Nov 1994 08:49:37 GMT" rfl rfl rfl rfl rfl
      (by decide)⟩

theorem mb_res_after_rename (d : String) (env : Env) (nE nLM : String)
    (fp : FPath) (fs : FS) (tr : List Event) (name : String)
    (hwfa : env.writeFailAt = none) (hz : env.zipOpenOk = true)
    (hsel : selectName env.zipNamelist = some name)
    (hext : env.extractOk = true) (hren : env.renameOk = true) :
    (modifiedBranch d env nE nLM fp fs tr).1 =
      (if env.writeEtagOk then
        (if env.writeLMOk then .ok () else .error .ioError)
      else .error .ioError) := by
  unfold modifiedBranch
  rcases hsl : streamLoop fp env.bodyChunks env.writeFailAt 0 fs tr
    with ⟨o, fs1, tr1⟩
  have ho : o = none := by
    have h := streamLoop_none_of_failAt_none env fp fs tr hwfa
    rw [hsl] at h
    exact h
  subst ho
  cases het : env.writeEtagOk <;> cases hlm : env.writeLMOk <;>
    simp [innerBody, hz, hsel, hext, hren, het, hlm]

/-- C4 (amended): once the rename has succeeded, a failure of the
staging-directory cleanup (`rmtree`) is only logged and the call still
returns Changed = true; but a failure persisting either token file
propagates as an `IOError` — the code has no handler after the rename, so
the call does NOT report success in that case. -/
theorem c4_post_rename_outcomes (d : String) (env : Env) (fs0 : FS)
    (nE nLM name : String)
    (hhttp : env.http = .ok nE nLM) (hmk : env.mkstempOk = true)
    (hwfa : env.writeFailAt = none) (hz : env.zipOpenOk = true)
    (hsel : selectName env.zipNamelist = some name)
    (hext : env.extractOk = true) (hren : env.renameOk = true)
    (hunl : env.unlinkOk = true) :
    (env.writeEtagOk = true → env.writeLMOk = true →
      (ensure_latest d env fs0).res = .ok true)
  ∧ (env.writeEtagOk = false →
      (ensure_latest d env fs0).res = .error .ioError)
  ∧ (env.writeEtagOk = true → env.writeLMOk = false →
      (ensure_latest d env fs0).res = .error .ioError) := by
  have hres := mb_res_after_rename d env nE nLM env.tempPath
    (fs0.write env.tempPath "")
    [.reqSent (sentHeaders d env fs0), .fsWrite env.tempPath] name
    hwfa hz hsel hext hren
  refine ⟨?_, ?_, ?_⟩
  · intro het hlm
    rw [het, hlm] at hres
    simp only [if_pos rfl] at hres
    simp only [ensure_latest, hhttp]
    unfold modifiedCase
    rw [hmk]
    rw [if_neg (by simp)]
    split
    all_goals simp_all [finalRes]
  · intro het
    rw [het] at hres
    simp only [Bool.false_eq_true, if_false] at hres
    simp only [ensure_latest, hhttp]
    unfold modifiedCase
    rw [hmk]
    rw [if_neg (by simp)]
    split
    all_goals simp_all [finalRes]
  · intro het hlm
    rw [het, hlm] at hres
    simp only [if_pos rfl, Bool.false_eq_true, if_false] at hres
    simp only [ensure_latest, hhttp]
    unfold modifiedCase
    rw [hmk]
    rw [if_neg (by simp)]
    split
    all_goals simp_all [finalRes]

/-- C4 counterexample to the claim as stated: a concrete run in which the
rename succeeded (the rename event is in the trace) and then the etag
write failed — the call does not return success, it raises `IOError`. -/
theorem c4_counterexample :
    (ensure_latest "/data" { envAllOk with writeEtagOk := false }
        fsStart).res = .error .ioError
  ∧ Event.fsRename ["/data", "tmp", "vehicles.csv"] ["/data", "vehicles.csv"]
      ∈ (ensure_latest "/data" { envAllOk with writeEtagOk := false }
        fsStart).tr := by
  exact ⟨by decide, by decide⟩

/-- C4 witness: a concrete run whose staging cleanup (`rmtree`) fails
after a successful rename still returns Changed = true. -/
theorem c4_witness :
    (ensure_latest "/data" { envAllOk with rmtreeOk := false } fsStart).res
      = .ok true :=
  (c4_post_rename_outcomes "/data" { envAllOk with rmtreeOk := false }
    fsStart "xyz" "Sun, 06 Nov 1994 08:49:37 GMT" "vehicles.csv"
    rfl rfl rfl rfl (by decide) rfl rfl rfl).1 rfl rfl

theorem FS.read_remove_none (fs : FS) (q p : FPath) (h : fs.read p = none) :
    (fs.remove q).read p = none := by
  by_cases hq : q = p
  · subst hq
    exact FS.read_remove_self fs q
  · rw [FS.read_remove_ne fs p q hq]
    exact h

theorem mb_staging_removed (d : String) (env : Env) (nE nLM : String)
    (fp : FPath) (fs : FS) (tr : List Event) (p : FPath)
    (hwfa : env.writeFailAt = none) (hrm : env.rmtreeOk = true)
    (hp : underDir [d, "tmp"] p = true) :
    ((modifiedBranch d env nE nLM fp fs tr).2.1).read p = none := by
  unfold modifiedBranch
  rcases hsl : streamLoop fp env.bodyChunks env.writeFailAt 0 fs tr
    with ⟨o, fs1, tr1⟩
  have ho : o = none := by
    have h := streamLoop_none_of_failAt_none env fp fs tr hwfa
    rw [hsl] at h
    exact h
  subst ho
  have hgoal : ((rmtreeStep d env (innerBody d env nE nLM fs1 tr1).2.1
      (innerBody d env nE nLM fs1 tr1).2.2).1).read p = none := by
    simp only [rmtreeStep, hrm, if_pos rfl]
    exact FS.read_removeTree_under _ _ _ hp
  exact hgoal

/-- C9 (amended): staging cleanup on the modified branch.  (1) When the
unlink of the temporary download file succeeds, the file is gone at the
end of every exit path of the modified branch, whatever else failed.
(2) When the body download completed and `rmtree` succeeds, nothing
remains below the staging directory `target_dir/tmp` on any exit path.
(3) A failing `rmtree` is caught and logged and an otherwise fully
successful sync still returns Changed = true.  (The code does NOT extend
this to the temp-file unlink: its failure escalates, see the
counterexample.) -/
theorem c9_cleanup_behaviour (d : String) (env : Env) (fs0 : FS)
    (nE nLM : String)
    (hhttp : env.http = .ok nE nLM) (hmk : env.mkstempOk = true) :
    (env.unlinkOk = true →
      ((ensure_latest d env fs0).fs).read env.tempPath = none)
  ∧ (env.writeFailAt = none → env.rmtreeOk = true →
      ∀ p, underDir [d, "tmp"] p = true →
        ((ensure_latest d env fs0).fs).read p = none)
  ∧ (∀ name, env.writeFailAt = none → env.zipOpenOk = true →
      selectName env.zipNamelist = some name → env.extractOk = true →
      env.renameOk = true → env.writeEtagOk = true →
      env.writeLMOk = true → env.unlinkOk = true → env.rmtreeOk = false →
      (ensure_latest d env fs0).res = .ok true) := by
  refine ⟨?_, ?_, ?_⟩
  · intro hunl
    simp only [ensure_latest, hhttp]
    unfold modifiedCase
    rw [hmk]
    rw [if_neg (by simp)]
    simp only [hunl]
    rw [if_pos trivial]
    split
    · exact FS.read_remove_self _ _
    · next h =>
      rcases hx : ((modifiedBranch d env nE nLM env.tempPath
          (fs0.write env.tempPath "")
          [.reqSent (sentHeaders d env fs0),
            .fsWrite env.tempPath]).2.1).read env.tempPath with _ | v
      · rfl
      · rw [hx] at h
        simp at h
  · intro hwfa hrm p hp
    have hmb := mb_staging_removed d env nE nLM env.tempPath
      (fs0.write env.tempPath "")
      [.reqSent (sentHeaders d env fs0), .fsWrite env.tempPath] p
      hwfa hrm hp
    simp only [ensure_latest, hhttp]
    unfold modifiedCase
    rw [hmk]
    rw [if_neg (by simp)]
    repeat' split
    all_goals first
      | exact FS.read_remove_none _ _ _ hmb
      | exact hmb
  · intro name hwfa hz hsel hext hren het hlm hunl hrm
    have hres := mb_res_after_rename d env nE nLM env.tempPath
      (fs0.write env.tempPath "")
      [.reqSent (sentHeaders d env fs0), .fsWrite env.tempPath] name
      hwfa hz hsel hext hren
    rw [het, hlm] at hres
    simp only [if_pos rfl] at hres
    simp only [ensure_latest, hhttp]
    unfold modifiedCase
    rw [hmk]
    rw [if_neg (by simp)]
    split
    all_goals simp_all [finalRes]

/-- C9 counterexample to the claim as stated: in a concrete run where
every step succeeds except the final unlink of the temporary download
file, the cleanup failure escalates (`OSError`) and turns an
otherwise-successful sync (rename succeeded, tokens written) into a
reported failure. -/
theorem c9_counterexample :
    (ensure_latest "/data" { envAllOk with unlinkOk := false } fsStart).res
      = .error .osError
  ∧ Event.fsRename ["/data", "tmp", "vehicles.csv"] ["/data", "vehicles.csv"]
      ∈ (ensure_latest "/data" { envAllOk with unlinkOk := false }
        fsStart).tr
  ∧ Event.fsWrite ["/data", "vehicles.etag"]
      ∈ (ensure_latest "/data" { envAllOk with unlinkOk := false }
        fsStart).tr := by
  exact ⟨by decide, by decide, by decide⟩

/-- C9 witness: at a concrete successful run, the temp file is gone, the
staging directory is empty, and a failing rmtree still yields success. -/
theorem c9_witness :
    ((ensure_latest "/data" envAllOk fsStart).fs).read ["/tmp", "tmpZq7R1x"]
      = none
  ∧ ((ensure_latest "/data" envAllOk fsStart).fs).read
      ["/data", "tmp", "vehicles.csv"] = none
  ∧ (ensure_latest "/data" { envAllOk with rmtreeOk := false } fsStart).res
      = .ok true := by
  refine ⟨?_, ?_, ?_⟩
  · exact (c9_cleanup_behaviour "/data" envAllOk fsStart "xyz"
      "Sun, 06 Nov 1994 08:49:37 GMT" rfl rfl).1 rfl
  · exact (c9_cleanup_behaviour "/data" envAllOk fsStart "xyz"
      "Sun, 06 Nov 1994 08:49:37 GMT" rfl rfl).2.1 rfl rfl
      ["/data", "tmp", "vehicles.csv"] (by decide)
  · exact (c9_cleanup_behaviour "/data" { envAllOk with rmtreeOk := false }
      fsStart "xyz" "Sun, 06 Nov 1994 08:49:37 GMT" rfl rfl).2.2
      "vehicles.csv" rfl rfl (by decide) rfl rfl rfl rfl rfl rfl

theorem isTok_false_of_ne (d : String) (p : FPath)
    (h1 : p ≠ [d, "vehicles.etag"]) (h2 : p ≠ [d, "vehicles.last_modified"]) :
    isTokWrite d (.fsWrite p) = false := by
  simp [isTokWrite, h1, h2]

theorem isTok_extracted_false (x d n : String) :
    isTokWrite x (Event.fsWrite [d, "tmp", n]) = false := by
  simp [isTokWrite]

theorem innerBody_decomp (d : String) (env : Env) (nE nLM : String)
    (fs : FS) (tr : List Event) :
    ∃ mid post, (innerBody d env nE nLM fs tr).2.2 = tr ++ mid ++ post
      ∧ (∀ e ∈ mid, ∃ n, e = Event.fsWrite [d, "tmp", n])
      ∧ (post = [] ∨ ∃ s t rest, post = Event.fsRename s t :: rest) := by
  cases hz : env.zipOpenOk
  · exact ⟨[], [], by simp [innerBody, hz], by simp, Or.inl rfl⟩
  · rcases hsel : selectName env.zipNamelist with _ | name
    · exact ⟨[], [], by simp [innerBody, hz, hsel], by simp, Or.inl rfl⟩
    · cases hext : env.extractOk
      · exact ⟨[], [], by simp [innerBody, hz, hsel, hext], by simp,
          Or.inl rfl⟩
      · cases hren : env.renameOk
        · refine ⟨[.fsWrite [d, "tmp", name]], [], ?_, ?_, Or.inl rfl⟩
          · simp [innerBody, hz, hsel, hext, hren]
          · intro e he
            simp at he
            exact ⟨name, he⟩
        · cases het : env.writeEtagOk
          · refine ⟨[.fsWrite [d, "tmp", name]],
              [.fsRename [d, "tmp", name] [d, "vehicles.csv"]], ?_, ?_,
              Or.inr ⟨_, _, _, rfl⟩⟩
            · simp [innerBody, hz, hsel, hext, hren, het, List.append_assoc]
            · intro e he
              simp at he
              exact ⟨name, he⟩
          · cases hlm : env.writeLMOk
            · refine ⟨[.fsWrite [d, "tmp", name]],
                [.fsRename [d, "tmp", name] [d, "vehicles.csv"],
                  .fsWrite [d, "vehicles.etag"]], ?_, ?_,
                Or.inr ⟨_, _, _, rfl⟩⟩
              · simp [innerBody, hz, hsel, hext, hren, het, hlm,
                  List.append_assoc]
              · intro e he
                simp at he
                exact ⟨name, he⟩
            · refine ⟨[.fsWrite [d, "tmp", name]],
                [.fsRename [d, "tmp", name] [d, "vehicles.csv"],
                  .fsWrite [d, "vehicles.etag"],
                  .fsWrite [d, "vehicles.last_modified"]], ?_, ?_,
                Or.inr ⟨_, _, _, rfl⟩⟩
              · simp [innerBody, hz, hsel, hext, hren, het, hlm,
                  List.append_assoc]
              · intro e he
                simp at he
                exact ⟨name, he⟩

theorem mb_decomp (d : String) (env : Env) (nE nLM : String) (fp : FPath)
    (fs : FS) (tr : List Event) :
    ∃ pre post, (modifiedBranch d env nE nLM fp fs tr).2.2 = tr ++ pre ++ post
      ∧ (∀ e ∈ pre, (∃ n, e = Event.fsWrite [d, "tmp", n])
          ∨ e = Event.fsWrite fp ∨ e = Event.fsRemoveTree [d, "tmp"])
      ∧ (post = [] ∨ ∃ s t rest, post = Event.fsRename s t :: rest) := by
  unfold modifiedBranch
  rcases hsl : streamLoop fp env.bodyChunks env.writeFailAt 0 fs tr
    with ⟨o, fs1, tr1⟩
  obtain ⟨ws, hws, hall⟩ :=
    streamLoop_tr_append fp env.bodyChunks env.writeFailAt 0 fs tr
  rw [hsl] at hws
  have hws' : tr1 = tr ++ ws := hws
  subst hws'
  cases o with
  | some e =>
    refine ⟨ws, [], by simp, ?_, Or.inl rfl⟩
    intro e2 he
    exact Or.inr (Or.inl (hall e2 he))
  | none =>
    obtain ⟨mid, post, htr, hmid, hpost⟩ :=
      innerBody_decomp d env nE nLM fs1 (tr ++ ws)
    cases hrm : env.rmtreeOk
    · refine ⟨ws ++ mid, post, ?_, ?_, hpost⟩
      · have hgoal : (rmtreeStep d env
            (innerBody d env nE nLM fs1 (tr ++ ws)).2.1
            (innerBody d env nE nLM fs1 (tr ++ ws)).2.2).2
            = tr ++ (ws ++ mid) ++ post := by
          simp [rmtreeStep, hrm, htr, List.append_assoc]
        exact hgoal
      · intro e he
        rcases List.mem_append.mp he with h | h
        · exact Or.inr (Or.inl (hall e h))
        · rcases hmid e h with ⟨n, rfl⟩
          exact Or.inl ⟨n, rfl⟩
    · rcases hpost with rfl | ⟨s, t, rest, rfl⟩
      · refine ⟨ws ++ mid ++ [.fsRemoveTree [d, "tmp"]], [], ?_, ?_,
          Or.inl rfl⟩
        · have hgoal : (rmtreeStep d env
              (innerBody d env nE nLM fs1 (tr ++ ws)).2.1
              (innerBody d env nE nLM fs1 (tr ++ ws)).2.2).2
              = tr ++ (ws ++ mid ++ [Event.fsRemoveTree [d, "tmp"]]) ++ [] := by
            simp [rmtreeStep, hrm, htr, List.append_assoc]
          exact hgoal
        · intro e he
          rcases List.mem_append.mp he with h | h
          · rcases List.mem_append.mp h with h2 | h2
            · exact Or.inr (Or.inl (hall e h2))
            · rcases hmid e h2 with ⟨n, rfl⟩
              exact Or.inl ⟨n, rfl⟩
          · simp at h
            subst h
            exact Or.inr (Or.inr rfl)
      · refine ⟨ws ++ mid,
          Event.fsRename s t :: (rest ++ [Event.fsRemoveTree [d, "tmp"]]),
          ?_, ?_, Or.inr ⟨s, t, _, rfl⟩⟩
        · have hgoal : (rmtreeStep d env
              (innerBody d env nE nLM fs1 (tr ++ ws)).2.1
              (innerBody d env nE nLM fs1 (tr ++ ws)).2.2).2
              = tr ++ (ws ++ mid)
                ++ (Event.fsRename s t
                  :: (rest ++ [Event.fsRemoveTree [d, "tmp"]])) := by
            simp [rmtreeStep, hrm, htr, List.append_assoc]
          exact hgoal
        · intro e he
          rcases List.mem_append.mp he with h | h
          · exact Or.inr (Or.inl (hall e h))
          · rcases hmid e h with ⟨n, rfl⟩
            exact Or.inl ⟨n, rfl⟩

theorem noTokBeforeRenameB_append_extra (d : String)
    (pre post extra : List Event)
    (hpre : ∀ e ∈ pre, isTokWrite d e = false)
    (hpost : post = [] ∨ ∃ s t rest, post = Event.fsRename s t :: rest)
    (hextra : ∀ e ∈ extra, isTokWrite d e = false) :
    noTokBeforeRenameB d (pre ++ post ++ extra) = true := by
  rcases hpost with rfl | ⟨s, t, rest, rfl⟩
  · have h := noTokBeforeRenameB_of_decomp d (pre ++ extra) []
      (by
        intro e he
        rcases List.mem_append.mp he with h | h
        · exact hpre e h
        · exact hextra e h)
      (Or.inl rfl)
    simpa using h
  · have h := noTokBeforeRenameB_of_decomp d pre
      (Event.fsRename s t :: (rest ++ extra)) hpre
      (Or.inr ⟨_, _, rfl, rfl⟩)
    simpa [List.append_assoc] using h

/-- C6: in every run (in particular every successful modified-path sync),
no write to either sidecar token file ever occurs in the trace before the
first successful rename — token persistence is strictly after the swap. -/
theorem c6_tokens_written_only_after_rename (d : String) (env : Env)
    (fs0 : FS) (hwf : EnvWF d env) :
    noTokBeforeRenameB d (ensure_latest d env fs0).tr = true := by
  have hfp1 : env.tempPath ≠ [d, "vehicles.etag"] := by
    intro hc
    exact hwf (by rw [hc]; simp [canonicalPaths])
  have hfp2 : env.tempPath ≠ [d, "vehicles.last_modified"] := by
    intro hc
    exact hwf (by rw [hc]; simp [canonicalPaths])
  have htokfp : isTokWrite d (.fsWrite env.tempPath) = false :=
    isTok_false_of_ne d _ hfp1 hfp2
  cases hhttp : env.http with
  | transportError =>
    simp [ensure_latest, hhttp, noTokBeforeRenameB, isRenameEv, isTokWrite]
  | httpError c =>
    simp [ensure_latest, hhttp, noTokBeforeRenameB, isRenameEv, isTokWrite]
  | notModified =>
    simp [ensure_latest, hhttp, noTokBeforeRenameB, isRenameEv, isTokWrite]
  | ok nE nLM =>
    cases hmk : env.mkstempOk with
    | false =>
      simp [ensure_latest, hhttp, modifiedCase, hmk, noTokBeforeRenameB,
        isRenameEv, isTokWrite]
    | true =>
      obtain ⟨pre, post, htr, hpre, hpost⟩ := mb_decomp d env nE nLM
        env.tempPath (fs0.write env.tempPath "")
        [.reqSent (sentHeaders d env fs0), .fsWrite env.tempPath]
      have hpre' : ∀ e ∈ ([Event.reqSent (sentHeaders d env fs0),
          Event.fsWrite env.tempPath] ++ pre), isTokWrite d e = false := by
        intro e he
        rcases List.mem_append.mp he with h | h
        · rcases List.mem_cons.mp h with rfl | h2
          · rfl
          · rcases List.mem_cons.mp h2 with rfl | h3
            · exact htokfp
            · exact absurd h3 (List.not_mem_nil e)
        · rcases hpre e h with ⟨n, rfl⟩ | rfl | rfl
          · exact isTok_extracted_false d d n
          · exact htokfp
          · rfl
      simp only [ensure_latest, hhttp]
      unfold modifiedCase
      rw [hmk]
      rw [if_neg (by simp)]
      split
      · split
        · rw [htr]
          exact noTokBeforeRenameB_append_extra d
            ([Event.reqSent (sentHeaders d env fs0),
              Event.fsWrite env.tempPath] ++ pre) post
            [Event.fsRemoveFile env.tempPath] hpre' hpost
            (by intro e he; simp at he; subst he; rfl)
        · rw [htr]
          have h := noTokBeforeRenameB_append_extra d
            ([Event.reqSent (sentHeaders d env fs0),
              Event.fsWrite env.tempPath] ++ pre) post [] hpre' hpost
            (by simp)
          simpa using h
      · rw [htr]
        have h := noTokBeforeRenameB_append_extra d
          ([Event.reqSent (sentHeaders d env fs0),
            Event.fsWrite env.tempPath] ++ pre) post [] hpre' hpost
          (by simp)
        simpa using h

/-- C6 witness at a concrete fully successful modified-path run. -/
theorem c6_witness :
    noTokBeforeRenameB "/data" (ensure_latest "/data" envAllOk fsStart).tr
      = true :=
  c6_tokens_written_only_after_rename "/data" envAllOk fsStart (by decide)

theorem run_tr_idx1 (d : String) (env : Env) (fs0 : FS) (nE nLM : String)
    (hhttp : env.http = .ok nE nLM) (hmk : env.mkstempOk = true) :
    (ensure_latest d env fs0).tr[1]? = some (Event.fsWrite env.tempPath) := by
  obtain ⟨ext, hext⟩ := mb_tr_mono d env nE nLM env.tempPath
    (fs0.write env.tempPath "")
    [.reqSent (sentHeaders d env fs0), .fsWrite env.tempPath]
  simp only [ensure_latest, hhttp]
  unfold modifiedCase
  rw [hmk]
  rw [if_neg (by simp)]
  repeat' split
  all_goals rw [hext]
  all_goals simp

theorem innerBody_extract_mem (d : String) (env : Env) (nE nLM : String)
    (fs : FS) (tr : List Event) (name : String)
    (hz : env.zipOpenOk = true)
    (hsel : selectName env.zipNamelist = some name)
    (hextr : env.extractOk = true) :
    Event.fsWrite [d, "tmp", name] ∈ (innerBody d env nE nLM fs tr).2.2 := by
  cases hren : env.renameOk <;> cases het : env.writeEtagOk <;>
    cases hlm : env.writeLMOk <;>
    simp [innerBody, hz, hsel, hextr, hren, het, hlm]

theorem mb_extract_mem (d : String) (env : Env) (nE nLM : String)
    (fp : FPath) (fs : FS) (tr : List Event) (name : String)
    (hwfa : env.writeFailAt = none) (hz : env.zipOpenOk = true)
    (hsel : selectName env.zipNamelist = some name)
    (hextr : env.extractOk = true) :
    Event.fsWrite [d, "tmp", name]
      ∈ (modifiedBranch d env nE nLM fp fs tr).2.2 := by
  unfold modifiedBranch
  rcases hsl : streamLoop fp env.bodyChunks env.writeFailAt 0 fs tr
    with ⟨o, fs1, tr1⟩
  have ho : o = none := by
    have h := streamLoop_none_of_failAt_none env fp fs tr hwfa
    rw [hsl] at h
    exact h
  subst ho
  exact rmtreeStep_tr_mem d env _ _ _
    (innerBody_extract_mem d env nE nLM fs1 tr1 name hz hsel hextr)

/-- C8 (amended): the temporary download file is created wherever
`mkstemp()`'s default directory is — the system-wide temporary directory,
chosen independently of the target directory — not under the target
directory; and the extraction staging location is the fixed, not
process-unique, subdirectory `tmp` of the target directory (it is however
never the canonical dataset path itself, and it does lie on the target
directory's file system, which is what makes the final rename atomic). -/
theorem c8_staging_locations (d : String) (env : Env) (fs0 : FS)
    (nE nLM : String) (hhttp : env.http = .ok nE nLM)
    (hmk : env.mkstempOk = true) :
    (ensure_latest d env fs0).tr[1]?
        = some (Event.fsWrite [env.tmpDir, env.tmpName])
  ∧ (∀ name, env.writeFailAt = none → env.zipOpenOk = true →
      selectName env.zipNamelist = some name → env.extractOk = true →
      Event.fsWrite [d, "tmp", name] ∈ (ensure_latest d env fs0).tr
        ∧ ([d, "tmp", name] : FPath) ≠ [d, "vehicles.csv"]
        ∧ underDir [d, "tmp"] [d, "tmp", name] = true) := by
  constructor
  · exact run_tr_idx1 d env fs0 nE nLM hhttp hmk
  · intro name hwfa hz hsel hextr
    refine ⟨?_, by simp, under_tmp_extracted d name⟩
    have hmem := mb_extract_mem d env nE nLM env.tempPath
      (fs0.write env.tempPath "")
      [.reqSent (sentHeaders d env fs0), .fsWrite env.tempPath] name
      hwfa hz hsel hextr
    simp only [ensure_latest, hhttp]
    exact modifiedCase_tr_sup d env fs0 nE nLM hmk _ hmem

/-- C8 counterexample to the claim as stated: in a concrete modified-path
run with target directory `/data`, the temporary download file is created
at `/tmp/tmpZq7R1x` — not under the target directory — and the extraction
staging path `/data/tmp/vehicles.csv` is identical across two runs that
differ in the process-unique `mkstemp` name, so the staging location is
not process-unique. -/
theorem c8_counterexample :
    (ensure_latest "/data" envAllOk fsStart).tr[1]?
        = some (Event.fsWrite ["/tmp", "tmpZq7R1x"])
  ∧ underDir ["/data"] ["/tmp", "tmpZq7R1x"] = false
  ∧ Event.fsWrite ["/data", "tmp", "vehicles.csv"]
      ∈ (ensure_latest "/data" envAllOk fsStart).tr
  ∧ Event.fsWrite ["/data", "tmp", "vehicles.csv"]
      ∈ (ensure_latest "/data" { envAllOk with tmpName := "tmpOTHER" }
        fsStart).tr :=
  ⟨by decide, by decide, by decide, by decide⟩

/-- C8 witness at a concrete run. -/
theorem c8_witness :
    (ensure_latest "/data" envAllOk fsStart).tr[1]?
        = some (Event.fsWrite ["/tmp", "tmpZq7R1x"])
  ∧ (Event.fsWrite ["/data", "tmp", "vehicles.csv"]
        ∈ (ensure_latest "/data" envAllOk fsStart).tr
      ∧ (["/data", "tmp", "vehicles.csv"] : FPath)
          ≠ ["/data", "vehicles.csv"]
      ∧ underDir ["/data", "tmp"] ["/data", "tmp", "vehicles.csv"] = true) :=
  ⟨(c8_staging_locations "/data" envAllOk fsStart "xyz"
      "Sun, 06 Nov 1994 08:49:37 GMT" rfl rfl).1,
    (c8_staging_locations "/data" envAllOk fsStart "xyz"
      "Sun, 06 Nov 1994 08:49:37 GMT" rfl rfl).2 "vehicles.csv" rfl rfl
      (by decide) rfl⟩

theorem pyRead2048_length (s : String) (h : 2048 ≤ s.length) :
    (pyRead2048 s).length = 2048 := by
  show (s.data.take 2048).length = 2048
  rw [List.length_take]
  have hd : 2048 ≤ s.data.length := h
  omega

theorem pyRead2048_ne_of_long (s : String) (h : 2048 < s.length) :
    pyRead2048 s ≠ s := by
  intro hc
  have hl := congrArg String.length hc
  rw [pyRead2048_length s (le_of_lt h)] at hl
  omega

theorem pyRead2048_ne_empty (s : String) (h : 2048 < s.length) :
    pyRead2048 s ≠ "" := by
  intro hc
  have hl := congrArg String.length hc
  rw [pyRead2048_length s (le_of_lt h)] at hl
  have h0 : ("" : String).length = 0 := rfl
  rw [h0] at hl
  omega

theorem run_tr_idx0 (d : String) (env : Env) (fs0 : FS) :
    (ensure_latest d env fs0).tr[0]?
      = some (Event.reqSent (sentHeaders d env fs0)) := by
  cases hhttp : env.http with
  | transportError => simp [ensure_latest, hhttp]
  | httpError c => simp [ensure_latest, hhttp]
  | notModified => simp [ensure_latest, hhttp]
  | ok nE nLM =>
    cases hmk : env.mkstempOk with
    | false => simp [ensure_latest, hhttp, modifiedCase, hmk]
    | true =>
      obtain ⟨ext, hext⟩ := mb_tr_mono d env nE nLM env.tempPath
        (fs0.write env.tempPath "")
        [.reqSent (sentHeaders d env fs0), .fsWrite env.tempPath]
      simp only [ensure_latest, hhttp]
      unfold modifiedCase
      rw [hmk]
      rw [if_neg (by simp)]
      repeat' split
      all_goals rw [hext]
      all_goals simp

/-- C10: the sync reads at most the first 2048 bytes of each sidecar file
(`f.read(2048)`), so a stored token longer than 2048 bytes is silently
truncated to its first 2048 bytes, and it is that truncated value that is
attached as the precondition header of the conditional request the run
sends. -/
theorem c10_sidecar_read_truncation (d : String) (env : Env) (fs0 : FS)
    (s t : String) (hre : env.readEtagOk = true) (hrl : env.readLMOk = true)
    (hs : fs0.read [d, "vehicles.etag"] = some s)
    (ht : fs0.read [d, "vehicles.last_modified"] = some t)
    (hslen : 2048 < s.length) (htlen : 2048 < t.length) :
    sentHeaders d env fs0 =
      [(IF_NONE_MATCH, pyRead2048 s), (IF_MODIFIED_SINCE, pyRead2048 t),
        ("User-Agent", USER_AGENT_VALUE)]
  ∧ pyRead2048 s = String.mk (s.data.take 2048)
  ∧ pyRead2048 s ≠ s
  ∧ pyRead2048 t ≠ t
  ∧ (ensure_latest d env fs0).tr[0]?
      = some (Event.reqSent (sentHeaders d env fs0)) := by
  refine ⟨?_, rfl, pyRead2048_ne_of_long s hslen,
    pyRead2048_ne_of_long t htlen, run_tr_idx0 d env fs0⟩
  simp [sentHeaders, loadEtag, loadLastModified, hre, hrl, hs, ht,
    get_epa_updates_headers, lmHeaderValue, lmIsEmptyStr, normalizeLM,
    pyRead2048_ne_empty s hslen, pyRead2048_ne_empty t htlen]

/-- C10 witness at concrete 2049-byte sidecar values. -/
theorem c10_witness :
    sentHeaders "/d" envAllOk fsLong =
      [(IF_NONE_MATCH, pyRead2048 longTagA),
        (IF_MODIFIED_SINCE, pyRead2048 longTagB),
        ("User-Agent", USER_AGENT_VALUE)]
  ∧ pyRead2048 longTagA = String.mk (longTagA.data.take 2048)
  ∧ pyRead2048 longTagA ≠ longTagA
  ∧ pyRead2048 longTagB ≠ longTagB
  ∧ (ensure_latest "/d" envAllOk fsLong).tr[0]?
      = some (Event.reqSent (sentHeaders "/d" envAllOk fsLong)) :=
  c10_sidecar_read_truncation "/d" envAllOk fsLong longTagA longTagB
    rfl rfl rfl rfl
    (by
      have h : longTagA.length = 2049 := by
        show (List.replicate 2049 'a').length = 2049
        exact List.length_replicate 2049 'a'
      omega)
    (by
      have h : longTagB.length = 2049 := by
        show (List.replicate 2049 'b').length = 2049
        exact List.length_replicate 2049 'b'
      omega)

theorem httpDate_ne_empty (n : Int) : httpDate n ≠ "" := by
  intro h
  have hl := congrArg String.length h
  have h4 : (" GMT" : String).length = 4 := rfl
  have h0 : ("" : String).length = 0 := rfl
  simp [httpDate, strftimeHttp, String.length_append, h4, h0] at hl

/-- C7: for a fixed instant `n` (epoch seconds), supplying the
last-modified value as the protocol-formatted string of that instant, as
integer epoch seconds, as an integral float, as the timezone-naive UTC
calendar time of the instant, or as any timezone-aware calendar time `c`
with UTC offset `off` minutes denoting the same instant, all yield the
identical If-Modified-Since value `httpDate n`, rendered by the fixed
format `%a, %d %b %Y %H:%M:%S GMT`; an absent or empty value attaches no
header at all. -/
theorem c7_normalization_totality (n off : Int) (c : Civil)
    (hc : civilToEpoch c - 60 * off = n) :
    lmHeaderValue (some (.str (httpDate n))) = some (httpDate n)
  ∧ lmHeaderValue (some (.epochInt n)) = some (httpDate n)
  ∧ lmHeaderValue (some (.epochFloat n)) = some (httpDate n)
  ∧ lmHeaderValue (some (.dt (epochToCivil n) none)) = some (httpDate n)
  ∧ lmHeaderValue (some (.dt c (some off))) = some (httpDate n)
  ∧ lmHeaderValue none = none
  ∧ lmHeaderValue (some (.str "")) = none := by
  refine ⟨?_, rfl, rfl, rfl, ?_, rfl, rfl⟩
  · have hne : (httpDate n == "") = false :=
      beq_eq_false_iff_ne.mpr (httpDate_ne_empty n)
    simp [lmHeaderValue, lmIsEmptyStr, normalizeLM, hne]
  · have hut : utctimetuple c (some off) = gmtime n := by
      simp only [utctimetuple, hc]
      rfl
    simp [lmHeaderValue, lmIsEmptyStr, normalizeLM, hut, httpDate]

/-- C7 witness at the RFC 1123 example instant 784111777
(`Sun, 06 Nov 1994 08:49:37 GMT`), with the aware calendar time given at
UTC offset -330 minutes. -/
theorem c7_witness :
    lmHeaderValue (some (.str (httpDate 784111777)))
        = some (httpDate 784111777)
  ∧ lmHeaderValue (some (.epochInt 784111777)) = some (httpDate 784111777)
  ∧ lmHeaderValue (some (.epochFloat 784111777)) = some (httpDate 784111777)
  ∧ lmHeaderValue (some (.dt (epochToCivil 784111777) none))
      = some (httpDate 784111777)
  ∧ lmHeaderValue (some (.dt (epochToCivil (784111777 + 60 * (-330)))
      (some (-330)))) = some (httpDate 784111777)
  ∧ lmHeaderValue none = none
  ∧ lmHeaderValue (some (.str "")) = none :=
  c7_normalization_totality 784111777 (-330)
    (epochToCivil (784111777 + 60 * (-330))) (by decide)
